import Mathlib

/-!
Verification of the transcription-scripts CSV utilities.

The repository is a set of small Python scripts operating on CSV files:
add_durations.py (duration join), reorder_to_match.py (row reorder),
order_csvs.py (sort-compare), stitch_chunks.py and merge_files.py
(concatenation), compare_filenames.py (set diff).

This file shallowly embeds the row-level logic of those scripts over
parsed CSV data and proves the behavioural claims about them.

Modelling conventions:
- A parsed CSV file is a header (list of column names) plus a list of
  raw data rows (lists of cell strings), mirroring what csv.reader
  yields after the header line.
- A Python dict is an association list built with an insert operation
  that overwrites the value of an existing key in place and appends a
  new key at the end, exactly the CPython dict semantics (insertion
  order preserved, value overwritten on repeated key).
- csv.DictReader turns one raw row into a dict by zipping the header
  with the cells; cells missing from a short row read as the empty
  string (Python restval None, which the scripts only ever compare for
  truthiness or write out, where it behaves like the empty string).
- A Python KeyError raised by row[col] and the explicit
  missing-column check-and-return of reorder_to_match / order_csvs are
  embedded as distinct error values of an Except type.
-/

namespace TranscriptionScripts

/-- A DictReader row: an association list from column name to cell value. -/
abbrev Row := List (String × String)

/-- Python dict lookup d.get(k) on an association list. -/
def dget (k : String) : List (String × α) → Option α
  | [] => none
  | (k0, v) :: rest => if k = k0 then some v else dget k rest

/-- Python dict assignment d[k] = v: overwrite the value of an existing
key in place, append a brand new key at the end (CPython insertion-order
semantics). -/
def dinsert (k : String) (v : α) : List (String × α) → List (String × α)
  | [] => [(k, v)]
  | (k0, v0) :: rest =>
    if k0 = k then (k, v) :: rest else (k0, v0) :: dinsert k v rest

/-- The value of the last binding of a key in a list of pairs, if any
(the binding that survives repeated Python dict assignment). -/
def lastAssoc (k : String) : List (String × α) → Option α
  | [] => none
  | p :: ps =>
    match lastAssoc k ps with
    | some v => some v
    | none => if p.1 = k then some p.2 else none

/-- A parsed CSV file: the header line and the data rows as produced by
csv.reader. -/
structure CSV where
  header : List String
  rows : List (List String)
deriving DecidableEq, Repr

/-- csv.DictReader semantics for one data row: zip the header with the
cells (padding a short row with empty cells, modelling restval), then
build the row dict left to right.  On duplicate header names the last
column wins, as in Python dict(zip(fieldnames, row)). -/
def dictRow (header cells : List String) : Row :=
  (header.zip (cells ++ List.replicate (header.length - cells.length) "")).foldl
    (fun m kv => dinsert kv.1 kv.2 m) []

/-- Errors surfaced by the scripts: a raw Python KeyError from row[col],
versus the explicit missing-column diagnostic that names the column and
lists the available columns. -/
inductive PyErr where
  | keyError (col : String)
  | missingColumn (col : String) (available : List String)
deriving DecidableEq, Repr

/-! ### Association-list (Python dict) lemmas -/

theorem dget_dinsert (k k0 : String) (v : α) (m : List (String × α)) :
    dget k (dinsert k0 v m) = if k = k0 then some v else dget k m := by
  induction m with
  | nil => simp [dinsert, dget]
  | cons p rest ih =>
    obtain ⟨k1, v1⟩ := p
    by_cases h1 : k1 = k0
    · subst h1
      by_cases h2 : k = k1 <;> simp [dinsert, dget, h2]
    · by_cases h2 : k = k1
      · subst h2
        simp [dinsert, dget, h1, Ne.symm h1]
      · simp [dinsert, dget, h1, h2, ih]

theorem dget_foldl_dinsert (ps : List (String × α)) :
    ∀ (m0 : List (String × α)) (k : String),
      dget k (ps.foldl (fun m p => dinsert p.1 p.2 m) m0) =
        match lastAssoc k ps with
        | some v => some v
        | none => dget k m0 := by
  induction ps with
  | nil => intro m0 k; simp [lastAssoc]
  | cons p ps ih =>
    intro m0 k
    simp only [List.foldl_cons, ih, lastAssoc]
    cases hl : lastAssoc k ps with
    | some v => simp
    | none =>
      simp only [dget_dinsert]
      by_cases hk : k = p.1
      · simp [hk]
      · rw [if_neg hk, if_neg (fun h => hk h.symm)]

theorem lastAssoc_eq_none_iff (k : String) (ps : List (String × α)) :
    lastAssoc k ps = none ↔ k ∉ ps.map Prod.fst := by
  induction ps with
  | nil => simp [lastAssoc]
  | cons p ps ih =>
    simp only [lastAssoc, List.map_cons, List.mem_cons]
    cases hl : lastAssoc k ps with
    | some v =>
      have hmem : k ∈ ps.map Prod.fst := by
        by_contra hc
        rw [ih.mpr hc] at hl
        cases hl
      simp [hmem]
    | none =>
      have hnotin : k ∉ ps.map Prod.fst := ih.mp hl
      by_cases hp : p.1 = k
      · simp [hp]
      · have hne : k ≠ p.1 := fun h => hp h.symm
        simp [if_neg hp, hne, hnotin]

theorem dget_eq_none_iff (k : String) (ps : List (String × α)) :
    dget k ps = none ↔ k ∉ ps.map Prod.fst := by
  induction ps with
  | nil => simp [dget]
  | cons p ps ih =>
    obtain ⟨k0, v0⟩ := p
    by_cases hk : k = k0
    · subst hk; simp [dget]
    · simp [dget, hk, ih]

theorem dget_mem {k : String} {v : α} {ps : List (String × α)}
    (h : dget k ps = some v) : (k, v) ∈ ps := by
  induction ps with
  | nil => simp [dget] at h
  | cons p ps ih =>
    obtain ⟨k0, v0⟩ := p
    by_cases hk : k = k0
    · subst hk
      simp [dget] at h
      exact List.mem_cons.mpr (Or.inl (by simp [h]))
    · simp only [dget, if_neg hk] at h
      exact List.mem_cons_of_mem _ (ih h)

theorem dget_of_mem_nodup {k : String} {v : α} {ps : List (String × α)}
    (hnd : (ps.map Prod.fst).Nodup) (hm : (k, v) ∈ ps) : dget k ps = some v := by
  induction ps with
  | nil => simp at hm
  | cons p ps ih =>
    obtain ⟨k0, v0⟩ := p
    simp only [List.map_cons, List.nodup_cons] at hnd
    rcases List.mem_cons.mp hm with h | h
    · cases h
      simp [dget]
    · have hk : k ≠ k0 := by
        intro hkk
        subst hkk
        exact hnd.1 (List.mem_map.mpr ⟨(k, v), h, rfl⟩)
      simp [dget, hk, ih hnd.2 h]

theorem mem_dinsert {q : String × α} {k : String} {v : α} {m : List (String × α)}
    (h : q ∈ dinsert k v m) : q = (k, v) ∨ q ∈ m := by
  induction m with
  | nil => simpa [dinsert] using h
  | cons r rest ih =>
    obtain ⟨r1, r2⟩ := r
    by_cases hr : r1 = k
    · subst hr
      have hstep : dinsert r1 v ((r1, r2) :: rest) = (r1, v) :: rest := by
        simp [dinsert]
      rw [hstep, List.mem_cons] at h
      rcases h with h | h
      · exact Or.inl h
      · exact Or.inr (List.mem_cons_of_mem _ h)
    · simp only [dinsert, if_neg hr, List.mem_cons] at h
      rcases h with h | h
      · exact Or.inr (List.mem_cons.mpr (Or.inl h))
      · rcases ih h with h2 | h2
        · exact Or.inl h2
        · exact Or.inr (List.mem_cons_of_mem _ h2)

theorem mem_keys_dinsert {x k : String} {v : α} {m : List (String × α)}
    (h : x ∈ (dinsert k v m).map Prod.fst) : x = k ∨ x ∈ m.map Prod.fst := by
  rcases List.mem_map.mp h with ⟨q, hq, rfl⟩
  rcases mem_dinsert hq with h2 | h2
  · exact Or.inl (by rw [h2])
  · exact Or.inr (List.mem_map.mpr ⟨q, h2, rfl⟩)

theorem mem_foldl_dinsert {q : String × α} (ps : List (String × α)) :
    ∀ (m0 : List (String × α)),
      q ∈ ps.foldl (fun m p => dinsert p.1 p.2 m) m0 → q ∈ m0 ∨ q ∈ ps := by
  induction ps with
  | nil => exact fun m0 h => Or.inl h
  | cons p ps ih =>
    intro m0 h
    rcases ih _ h with h1 | h1
    · rcases mem_dinsert h1 with h2 | h2
      · exact Or.inr (List.mem_cons.mpr (Or.inl (by simp [h2])))
      · exact Or.inl h2
    · exact Or.inr (List.mem_cons_of_mem _ h1)

theorem dinsert_of_not_mem {k : String} {m : List (String × α)}
    (h : k ∉ m.map Prod.fst) (v : α) : dinsert k v m = m ++ [(k, v)] := by
  induction m with
  | nil => simp [dinsert]
  | cons p rest ih =>
    obtain ⟨k0, v0⟩ := p
    simp only [List.map_cons, List.mem_cons] at h
    push_neg at h
    have hne : ¬ k0 = k := fun hq => h.1 hq.symm
    simp [dinsert, hne, ih h.2]

theorem foldl_dinsert_of_nodup (ps : List (String × α)) :
    ∀ (m0 : List (String × α)),
      ((m0 ++ ps).map Prod.fst).Nodup →
      ps.foldl (fun m p => dinsert p.1 p.2 m) m0 = m0 ++ ps := by
  induction ps with
  | nil => intro m0 _; simp
  | cons p ps ih =>
    intro m0 hnd
    obtain ⟨k0, v0⟩ := p
    rw [List.append_cons] at hnd
    have hleft : ((m0 ++ [(k0, v0)]).map Prod.fst).Nodup := by
      rw [List.map_append, List.nodup_append] at hnd
      exact hnd.1
    have hp : k0 ∉ m0.map Prod.fst := by
      rw [List.map_append, List.nodup_append] at hleft
      intro hmem
      exact hleft.2.2 hmem (by simp)
    simp only [List.foldl_cons]
    rw [dinsert_of_not_mem hp, ih (m0 ++ [(k0, v0)]) hnd]
    rw [← List.append_cons]

theorem keys_nodup_dinsert {k : String} {v : α} {m : List (String × α)}
    (h : (m.map Prod.fst).Nodup) : ((dinsert k v m).map Prod.fst).Nodup := by
  induction m with
  | nil => simp [dinsert]
  | cons r rest ih =>
    obtain ⟨r1, r2⟩ := r
    simp only [List.map_cons, List.nodup_cons] at h
    by_cases hr : r1 = k
    · subst hr
      have hstep : dinsert r1 v ((r1, r2) :: rest) = (r1, v) :: rest := by
        simp [dinsert]
      rw [hstep, List.map_cons, List.nodup_cons]
      exact ⟨h.1, h.2⟩
    · simp only [dinsert, if_neg hr, List.map_cons, List.nodup_cons]
      refine ⟨?_, ih h.2⟩
      intro hcon
      rcases mem_keys_dinsert hcon with h2 | h2
      · exact hr h2
      · exact h.1 h2

theorem keys_nodup_foldl_dinsert (ps : List (String × α)) :
    ∀ (m0 : List (String × α)), (m0.map Prod.fst).Nodup →
      ((ps.foldl (fun m p => dinsert p.1 p.2 m) m0).map Prod.fst).Nodup := by
  induction ps with
  | nil => intro m0 h; simpa using h
  | cons p ps ih =>
    intro m0 h
    exact ih _ (keys_nodup_dinsert h)

/-! ### DictReader row lemmas -/

theorem dget_dictRow (k : String) (header cells : List String) :
    dget k (dictRow header cells) =
      lastAssoc k (header.zip (cells ++ List.replicate (header.length - cells.length) "")) := by
  rw [dictRow, dget_foldl_dinsert]
  cases lastAssoc k (header.zip (cells ++ List.replicate (header.length - cells.length) "")) <;>
    simp [dget]

theorem map_fst_zip_header (header cells : List String) :
    (header.zip (cells ++ List.replicate (header.length - cells.length) "")).map Prod.fst =
      header := by
  apply List.map_fst_zip
  simp only [List.length_append, List.length_replicate]
  omega

theorem dget_dictRow_eq_none_iff (k : String) (header cells : List String) :
    dget k (dictRow header cells) = none ↔ k ∉ header := by
  rw [dget_dictRow, lastAssoc_eq_none_iff, map_fst_zip_header]

theorem dget_dictRow_isSome_of_mem {k : String} {header : List String}
    (h : k ∈ header) (cells : List String) :
    ∃ v, dget k (dictRow header cells) = some v := by
  cases hv : dget k (dictRow header cells) with
  | some v => exact ⟨v, rfl⟩
  | none => exact absurd ((dget_dictRow_eq_none_iff k header cells).mp hv) (by simp [h])

/-! ### Lexicographic string order (Python string comparison by code point) -/

/-- Lexicographic comparison of character lists by unicode code point,
the order Python uses to compare strings. -/
def chLe : List Char → List Char → Bool
  | [], _ => true
  | _ :: _, [] => false
  | a :: as, b :: bs =>
    if a.toNat < b.toNat then true
    else if b.toNat < a.toNat then false
    else chLe as bs

/-- Python string less-or-equal: lexicographic on the code point lists. -/
def strLe (a b : String) : Bool := chLe a.data b.data

theorem chLe_trans (a : List Char) :
    ∀ (b c : List Char), chLe a b = true → chLe b c = true → chLe a c = true := by
  induction a with
  | nil => intro b c _ _; rfl
  | cons x xs ih =>
    intro b c hab hbc
    cases b with
    | nil => simp [chLe] at hab
    | cons y ys =>
      cases c with
      | nil => simp [chLe] at hbc
      | cons z zs =>
        simp only [chLe] at hab hbc ⊢
        by_cases hxy : x.toNat < y.toNat
        · by_cases hyz : y.toNat < z.toNat
          · have hxz : x.toNat < z.toNat := lt_trans hxy hyz
            simp [hxz]
          · by_cases hzy : z.toNat < y.toNat
            · simp [hyz, hzy] at hbc
            · have hxz : x.toNat < z.toNat := by omega
              simp [hxz]
        · by_cases hyx : y.toNat < x.toNat
          · simp [hxy, hyx] at hab
          · by_cases hyz : y.toNat < z.toNat
            · have hxz : x.toNat < z.toNat := by omega
              simp [hxz]
            · by_cases hzy : z.toNat < y.toNat
              · simp [hyz, hzy] at hbc
              · have h1 : ¬ x.toNat < z.toNat := by omega
                have h2 : ¬ z.toNat < x.toNat := by omega
                simp only [if_neg h1, if_neg h2]
                simp only [if_neg hxy, if_neg hyx] at hab
                simp only [if_neg hyz, if_neg hzy] at hbc
                exact ih ys zs hab hbc

theorem chLe_total (a : List Char) :
    ∀ (b : List Char), (chLe a b || chLe b a) = true := by
  induction a with
  | nil => intro b; rfl
  | cons x xs ih =>
    intro b
    cases b with
    | nil => rfl
    | cons y ys =>
      simp only [chLe]
      by_cases hxy : x.toNat < y.toNat
      · simp [hxy]
      · by_cases hyx : y.toNat < x.toNat
        · simp [hxy, hyx]
        · simp only [if_neg hxy, if_neg hyx]
          exact ih ys

theorem strLe_trans (a b c : String) (h1 : strLe a b = true) (h2 : strLe b c = true) :
    strLe a c = true :=
  chLe_trans a.data b.data c.data h1 h2

theorem strLe_total (a b : String) : (strLe a b || strLe b a) = true :=
  chLe_total a.data b.data

/-! ### add_durations.py (duration join)

Embeds add_durations(metadata_file, transcriptions_file, output_file):
the metadata pass builds duration_map (Filename to duration_sec, Python
dict, so a repeated Filename silently overwrites), then every
transcription row is emitted with the looked-up duration, an empty
string when the key is absent, and the matched / unmatched counters are
updated by Python string truthiness (if duration:). -/

/-- transcription = row.get(Transcription) or row.get(transcript, ""):
the or falls through on a missing column and on an empty value. -/
def transcriptField (row : Row) : String :=
  match dget "Transcription" row with
  | some t => if t = "" then (dget "transcript" row).getD "" else t
  | none => (dget "transcript" row).getD ""

/-- One iteration of the metadata loop of add_durations:
duration_map[row[Filename]] = row[duration_sec].  row[col] on a missing
column raises KeyError. -/
def durStep (header : List String) (m : List (String × String))
    (cells : List String) : Except PyErr (List (String × String)) :=
  match dget "Filename" (dictRow header cells) with
  | none => .error (.keyError "Filename")
  | some filename =>
    match dget "duration_sec" (dictRow header cells) with
    | none => .error (.keyError "duration_sec")
    | some duration => .ok (dinsert filename duration m)

/-- The metadata pass of add_durations.  The loader performs no schema
check of its own: with zero data rows it succeeds even when the key
column is absent, and otherwise the first row raises KeyError. -/
def loadDurationMap (metadata : CSV) : Except PyErr (List (String × String)) :=
  metadata.rows.foldlM (durStep metadata.header) []

/-- Observable outcome of add_durations: the emitted output rows, the
three counters printed at the end, and the per-row warning lines. -/
structure JoinOut where
  rows : List Row
  processed : Nat
  matched : Nat
  unmatched : Nat
  warnings : List String
deriving DecidableEq, Repr

/-- One iteration of the transcription loop of add_durations.
Python tests if duration: (string truthiness), so the matched branch
runs exactly when the looked-up duration is a non-empty string. -/
def joinStep (duration_map : List (String × String)) (header : List String)
    (acc : JoinOut) (cells : List String) : Except PyErr JoinOut :=
  let row := dictRow header cells
  match dget "Filename" row with
  | none => .error (.keyError "Filename")
  | some filename =>
    let transcription := transcriptField row
    let duration := (dget filename duration_map).getD ""
    let acc1 :=
      if duration = "" then
        { acc with
          unmatched := acc.unmatched + 1,
          warnings := acc.warnings ++ ["  Warning: No duration found for " ++ filename] }
      else { acc with matched := acc.matched + 1 }
    .ok { acc1 with
          rows := acc1.rows ++
            [[("Filename", filename), ("duration_sec", duration),
              ("transcript", transcription)]],
          processed := acc1.processed + 1 }

/-- add_durations: load the duration map from the metadata file, then
process every transcription row in order. -/
def add_durations (metadata transcriptions : CSV) : Except PyErr JoinOut :=
  match loadDurationMap metadata with
  | .error e => .error e
  | .ok duration_map =>
    transcriptions.rows.foldlM (joinStep duration_map transcriptions.header)
      { rows := [], processed := 0, matched := 0, unmatched := 0, warnings := [] }

/-- The key column value of a parsed row (total because DictReader
guarantees the field exists whenever the column is in the header). -/
def rowKey (header : List String) (col : String) (cells : List String) : String :=
  (dget col (dictRow header cells)).getD ""

/-- The duration add_durations looks up for one transcription row,
with the empty-string default of duration_map.get(filename, ""). -/
def lookedUpDur (dm : List (String × String)) (header : List String)
    (cells : List String) : String :=
  (dget (rowKey header "Filename" cells) dm).getD ""

/-- The warning line printed for an unmatched transcription row. -/
def warnFor (header : List String) (cells : List String) : String :=
  "  Warning: No duration found for " ++ rowKey header "Filename" cells

/-- The output row add_durations emits for one transcription row. -/
def emitRow (dm : List (String × String)) (header : List String)
    (cells : List String) : Row :=
  [("Filename", rowKey header "Filename" cells),
   ("duration_sec", lookedUpDur dm header cells),
   ("transcript", transcriptField (dictRow header cells))]

theorem joinStep_ok {dm : List (String × String)} {header : List String}
    {acc out : JoinOut} {cells : List String}
    (h : joinStep dm header acc cells = Except.ok out) :
    out.rows.length = acc.rows.length + 1 ∧
    out.processed = acc.processed + 1 ∧
    out.matched + out.unmatched = acc.matched + acc.unmatched + 1 := by
  rw [joinStep] at h
  cases hf : dget "Filename" (dictRow header cells) with
  | none => rw [hf] at h; cases h
  | some filename =>
    rw [hf] at h
    by_cases hd : (dget filename dm).getD "" = ""
    · simp only [if_pos hd, Except.ok.injEq] at h
      subst h
      refine ⟨by simp, by simp, by simp; omega⟩
    · simp only [if_neg hd, Except.ok.injEq] at h
      subst h
      refine ⟨by simp, by simp, by simp; omega⟩

theorem joinFold_counts {dm : List (String × String)} {header : List String} :
    ∀ (cells : List (List String)) (acc out : JoinOut),
      List.foldlM (joinStep dm header) acc cells = Except.ok out →
      out.rows.length = acc.rows.length + cells.length ∧
      out.processed = acc.processed + cells.length ∧
      out.matched + out.unmatched = acc.matched + acc.unmatched + cells.length := by
  intro cells
  induction cells with
  | nil =>
    intro acc out h
    simp only [List.foldlM_nil, pure, Except.pure, Except.ok.injEq] at h
    subst h
    simp
  | cons c cs ih =>
    intro acc out h
    rw [List.foldlM_cons] at h
    cases hj : joinStep dm header acc c with
    | error e => rw [hj] at h; cases h
    | ok acc1 =>
      rw [hj] at h
      have h2 : List.foldlM (joinStep dm header) acc1 cs = Except.ok out := h
      obtain ⟨a1, a2, a3⟩ := joinStep_ok hj
      obtain ⟨b1, b2, b3⟩ := ih acc1 out h2
      refine ⟨?_, ?_, ?_⟩ <;> simp [List.length_cons] <;> omega

/-- C2: Duration-join (add_durations): for every row of the
transcriptions input, exactly one output row is written (output row
count equals input row count, no rows dropped), and the final matched
count plus unmatched count equals the total number of input rows
processed. -/
theorem adddur_row_bijection (metadata transcriptions : CSV) (out : JoinOut)
    (h : add_durations metadata transcriptions = Except.ok out) :
    out.rows.length = transcriptions.rows.length ∧
    out.processed = transcriptions.rows.length ∧
    out.matched + out.unmatched = out.processed := by
  rw [add_durations] at h
  cases hm : loadDurationMap metadata with
  | error e => rw [hm] at h; cases h
  | ok dm =>
    rw [hm] at h
    obtain ⟨h1, h2, h3⟩ := joinFold_counts _ _ _ h
    simp only [List.length_nil] at h1 h2 h3
    exact ⟨by omega, by omega, by omega⟩

/-- Concrete metadata file for the C2 witness. -/
def mdC2 : CSV := ⟨["Filename", "duration_sec"], [["a.wav", "1.2"]]⟩

/-- Concrete transcriptions file for the C2 witness. -/
def trC2 : CSV := ⟨["Filename", "Transcription"], [["a.wav", "hi"], ["b.wav", "yo"]]⟩

/-- The output add_durations produces on the C2 witness input. -/
def outC2 : JoinOut :=
  { rows := [[("Filename", "a.wav"), ("duration_sec", "1.2"), ("transcript", "hi")],
             [("Filename", "b.wav"), ("duration_sec", ""), ("transcript", "yo")]],
    processed := 2,
    matched := 1,
    unmatched := 1,
    warnings := ["  Warning: No duration found for b.wav"] }

theorem adddur_row_bijection_witness :
    add_durations mdC2 trC2 = Except.ok outC2 ∧
    (outC2.rows.length = trC2.rows.length ∧
     outC2.processed = trC2.rows.length ∧
     outC2.matched + outC2.unmatched = outC2.processed) :=
  ⟨rfl, adddur_row_bijection mdC2 trC2 outC2 rfl⟩

theorem joinFold_ok (dm : List (String × String)) (header : List String)
    (hcol : "Filename" ∈ header) :
    ∀ (cells : List (List String)) (acc : JoinOut),
      List.foldlM (joinStep dm header) acc cells =
        Except.ok
          { rows := acc.rows ++ cells.map (emitRow dm header),
            processed := acc.processed + cells.length,
            matched := acc.matched +
              (cells.filter (fun c => !(lookedUpDur dm header c == ""))).length,
            unmatched := acc.unmatched +
              (cells.filter (fun c => lookedUpDur dm header c == "")).length,
            warnings := acc.warnings ++
              (cells.filter (fun c => lookedUpDur dm header c == "")).map
                (warnFor header) } := by
  intro cells
  induction cells with
  | nil =>
    intro acc
    simp only [List.foldlM_nil, List.map_nil, List.append_nil, List.length_nil,
      List.filter_nil, Nat.add_zero]
    rfl
  | cons c cs ih =>
    intro acc
    rw [List.foldlM_cons]
    obtain ⟨filename, hf⟩ := dget_dictRow_isSome_of_mem hcol c
    have hkey : rowKey header "Filename" c = filename := by
      rw [rowKey, hf]; rfl
    have hlook : lookedUpDur dm header c = (dget filename dm).getD "" := by
      rw [lookedUpDur, hkey]
    have hemit : emitRow dm header c =
        [("Filename", filename), ("duration_sec", (dget filename dm).getD ""),
         ("transcript", transcriptField (dictRow header c))] := by
      rw [emitRow, hkey, hlook]
    rw [joinStep]
    rw [hf]
    by_cases hd : (dget filename dm).getD "" = ""
    · simp only [if_pos hd]
      have hbind :
          (Except.ok
            { acc with
              unmatched := acc.unmatched + 1,
              warnings := acc.warnings ++
                ["  Warning: No duration found for " ++ filename],
              rows := acc.rows ++
                [[("Filename", filename), ("duration_sec", (dget filename dm).getD ""),
                  ("transcript", transcriptField (dictRow header c))]],
              processed := acc.processed + 1 } >>=
            fun acc1 => List.foldlM (joinStep dm header) acc1 cs) =
          List.foldlM (joinStep dm header)
            { acc with
              unmatched := acc.unmatched + 1,
              warnings := acc.warnings ++
                ["  Warning: No duration found for " ++ filename],
              rows := acc.rows ++
                [[("Filename", filename), ("duration_sec", (dget filename dm).getD ""),
                  ("transcript", transcriptField (dictRow header c))]],
              processed := acc.processed + 1 } cs := rfl
      rw [hbind, ih]
      have hfc : (lookedUpDur dm header c == "") = true := by
        rw [hlook]; exact beq_iff_eq.mpr hd
      have hm1 : List.filter (fun x => !(lookedUpDur dm header x == "")) (c :: cs) =
          List.filter (fun x => !(lookedUpDur dm header x == "")) cs := by
        simp [List.filter_cons, hfc]
      have hm2 : List.filter (fun x => lookedUpDur dm header x == "") (c :: cs) =
          c :: List.filter (fun x => lookedUpDur dm header x == "") cs := by
        simp [List.filter_cons, hfc]
      have hw : warnFor header c =
          "  Warning: No duration found for " ++ filename := by
        rw [warnFor, hkey]
      rw [hm1, hm2]
      simp only [Except.ok.injEq, JoinOut.mk.injEq, List.map_cons, List.length_cons]
      refine ⟨?_, ?_, ?_, ?_, ?_⟩
      · rw [hemit]
        simp [List.append_assoc]
      · omega
      · trivial
      · omega
      · rw [hw]
        simp [List.append_assoc]
    · simp only [if_neg hd]
      have hbind :
          (Except.ok
            { acc with
              matched := acc.matched + 1,
              rows := acc.rows ++
                [[("Filename", filename), ("duration_sec", (dget filename dm).getD ""),
                  ("transcript", transcriptField (dictRow header c))]],
              processed := acc.processed + 1 } >>=
            fun acc1 => List.foldlM (joinStep dm header) acc1 cs) =
          List.foldlM (joinStep dm header)
            { acc with
              matched := acc.matched + 1,
              rows := acc.rows ++
                [[("Filename", filename), ("duration_sec", (dget filename dm).getD ""),
                  ("transcript", transcriptField (dictRow header c))]],
              processed := acc.processed + 1 } cs := rfl
      rw [hbind, ih]
      have hfc : (lookedUpDur dm header c == "") = false := by
        rw [hlook]
        exact beq_eq_false_iff_ne.mpr hd
      have hm1 : List.filter (fun x => !(lookedUpDur dm header x == "")) (c :: cs) =
          c :: List.filter (fun x => !(lookedUpDur dm header x == "")) cs := by
        simp [List.filter_cons, hfc]
      have hm2 : List.filter (fun x => lookedUpDur dm header x == "") (c :: cs) =
          List.filter (fun x => lookedUpDur dm header x == "") cs := by
        simp [List.filter_cons, hfc]
      rw [hm1, hm2]
      simp only [Except.ok.injEq, JoinOut.mk.injEq, List.map_cons, List.length_cons]
      refine ⟨?_, ?_, ?_, ?_, ?_⟩
      · rw [hemit]
        simp [List.append_assoc]
      · omega
      · omega
      · trivial
      · trivial

theorem add_durations_spec (metadata transcriptions : CSV)
    (dm : List (String × String))
    (hm : loadDurationMap metadata = Except.ok dm)
    (hcol : "Filename" ∈ transcriptions.header) :
    add_durations metadata transcriptions =
      Except.ok
        { rows := transcriptions.rows.map (emitRow dm transcriptions.header),
          processed := transcriptions.rows.length,
          matched := (transcriptions.rows.filter
            (fun c => !(lookedUpDur dm transcriptions.header c == ""))).length,
          unmatched := (transcriptions.rows.filter
            (fun c => lookedUpDur dm transcriptions.header c == "")).length,
          warnings := (transcriptions.rows.filter
            (fun c => lookedUpDur dm transcriptions.header c == "")).map
              (warnFor transcriptions.header) } := by
  rw [add_durations, hm]
  show List.foldlM (joinStep dm transcriptions.header)
      { rows := [], processed := 0, matched := 0, unmatched := 0, warnings := [] }
      transcriptions.rows = _
  rw [joinFold_ok dm transcriptions.header hcol]
  simp

/-- C5: Duration-join (add_durations): for every primary row whose key
is absent from the duration mapping, the emitted output row has an
empty duration_sec value, the row is counted as unmatched, and a
per-row warning is printed; for every primary row whose key is found,
the associated duration value is emitted. -/
theorem adddur_lookup_semantics (metadata transcriptions : CSV)
    (dm : List (String × String)) (out : JoinOut)
    (hm : loadDurationMap metadata = Except.ok dm)
    (hcol : "Filename" ∈ transcriptions.header)
    (h : add_durations metadata transcriptions = Except.ok out) :
    out.rows = transcriptions.rows.map (emitRow dm transcriptions.header) ∧
    out.unmatched = (transcriptions.rows.filter
      (fun c => lookedUpDur dm transcriptions.header c == "")).length ∧
    (∀ cells ∈ transcriptions.rows,
      ∀ filename, dget "Filename" (dictRow transcriptions.header cells) = some filename →
        (dget filename dm = none →
          emitRow dm transcriptions.header cells =
            [("Filename", filename), ("duration_sec", ""),
             ("transcript", transcriptField (dictRow transcriptions.header cells))] ∧
          ("  Warning: No duration found for " ++ filename) ∈ out.warnings) ∧
        (∀ d, dget filename dm = some d →
          emitRow dm transcriptions.header cells =
            [("Filename", filename), ("duration_sec", d),
             ("transcript", transcriptField (dictRow transcriptions.header cells))])) := by
  rw [add_durations_spec metadata transcriptions dm hm hcol] at h
  rw [Except.ok.injEq] at h
  subst h
  refine ⟨rfl, rfl, ?_⟩
  intro cells hc filename hf
  have hkey : rowKey transcriptions.header "Filename" cells = filename := by
    rw [rowKey, hf]; rfl
  constructor
  · intro hnone
    have hlu : lookedUpDur dm transcriptions.header cells = "" := by
      rw [lookedUpDur, hkey, hnone]; rfl
    constructor
    · rw [emitRow, hkey, hlu]
    · have hmemf : cells ∈ transcriptions.rows.filter
          (fun c => lookedUpDur dm transcriptions.header c == "") := by
        rw [List.mem_filter]
        exact ⟨hc, beq_iff_eq.mpr hlu⟩
      have : warnFor transcriptions.header cells =
          "  Warning: No duration found for " ++ filename := by
        rw [warnFor, hkey]
      exact this ▸ List.mem_map.mpr ⟨cells, hmemf, rfl⟩
  · intro d hd
    have hlu : lookedUpDur dm transcriptions.header cells = d := by
      rw [lookedUpDur, hkey, hd]; rfl
    rw [emitRow, hkey, hlu]

/-- C9: Duration-join (add_durations): a primary row whose key IS
present in the duration mapping but whose mapped duration_sec value is
the empty string is counted as unmatched and triggers the per-row
warning, exactly as if the key were absent; the matched counter counts
only rows whose looked-up duration is a non-empty string, not rows
whose key was found. -/
theorem adddur_matched_counts (metadata transcriptions : CSV)
    (dm : List (String × String)) (out : JoinOut)
    (hm : loadDurationMap metadata = Except.ok dm)
    (hcol : "Filename" ∈ transcriptions.header)
    (h : add_durations metadata transcriptions = Except.ok out) :
    out.matched = (transcriptions.rows.filter
      (fun c => !(lookedUpDur dm transcriptions.header c == ""))).length ∧
    out.unmatched = (transcriptions.rows.filter
      (fun c => lookedUpDur dm transcriptions.header c == "")).length ∧
    (∀ cells ∈ transcriptions.rows,
      ∀ filename, dget "Filename" (dictRow transcriptions.header cells) = some filename →
        dget filename dm = some "" →
          lookedUpDur dm transcriptions.header cells = "" ∧
          dget "duration_sec" (emitRow dm transcriptions.header cells) = some "" ∧
          ("  Warning: No duration found for " ++ filename) ∈ out.warnings) := by
  rw [add_durations_spec metadata transcriptions dm hm hcol] at h
  rw [Except.ok.injEq] at h
  subst h
  refine ⟨rfl, rfl, ?_⟩
  intro cells hc filename hf hempty
  have hkey : rowKey transcriptions.header "Filename" cells = filename := by
    rw [rowKey, hf]; rfl
  have hlu : lookedUpDur dm transcriptions.header cells = "" := by
    rw [lookedUpDur, hkey, hempty]; rfl
  refine ⟨hlu, ?_, ?_⟩
  · rw [emitRow, hlu]
    simp [dget]
  · have hmemf : cells ∈ transcriptions.rows.filter
        (fun c => lookedUpDur dm transcriptions.header c == "") := by
      rw [List.mem_filter]
      exact ⟨hc, beq_iff_eq.mpr hlu⟩
    have hwf : warnFor transcriptions.header cells =
        "  Warning: No duration found for " ++ filename := by
      rw [warnFor, hkey]
    exact hwf ▸ List.mem_map.mpr ⟨cells, hmemf, rfl⟩

/-- Concrete metadata file for the C5 witness. -/
def mdC5 : CSV := ⟨["Filename", "duration_sec"], [["a.wav", "1.5"], ["b.wav", "2.0"]]⟩

/-- Concrete transcriptions file for the C5 witness. -/
def trC5 : CSV := ⟨["Filename", "transcript"], [["b.wav", "x"], ["c.wav", "y"]]⟩

/-- The output add_durations produces on the C5 witness input. -/
def outC5 : JoinOut :=
  { rows := [[("Filename", "b.wav"), ("duration_sec", "2.0"), ("transcript", "x")],
             [("Filename", "c.wav"), ("duration_sec", ""), ("transcript", "y")]],
    processed := 2,
    matched := 1,
    unmatched := 1,
    warnings := ["  Warning: No duration found for c.wav"] }

theorem adddur_lookup_semantics_witness :
    loadDurationMap mdC5 = Except.ok [("a.wav", "1.5"), ("b.wav", "2.0")] ∧
    "Filename" ∈ trC5.header ∧
    add_durations mdC5 trC5 = Except.ok outC5 ∧
    (outC5.rows = trC5.rows.map (emitRow [("a.wav", "1.5"), ("b.wav", "2.0")] trC5.header) ∧
     outC5.unmatched = (trC5.rows.filter
       (fun c => lookedUpDur [("a.wav", "1.5"), ("b.wav", "2.0")] trC5.header c == "")).length ∧
     (∀ cells ∈ trC5.rows,
       ∀ filename, dget "Filename" (dictRow trC5.header cells) = some filename →
         (dget filename [("a.wav", "1.5"), ("b.wav", "2.0")] = none →
           emitRow [("a.wav", "1.5"), ("b.wav", "2.0")] trC5.header cells =
             [("Filename", filename), ("duration_sec", ""),
              ("transcript", transcriptField (dictRow trC5.header cells))] ∧
           ("  Warning: No duration found for " ++ filename) ∈ outC5.warnings) ∧
         (∀ d, dget filename [("a.wav", "1.5"), ("b.wav", "2.0")] = some d →
           emitRow [("a.wav", "1.5"), ("b.wav", "2.0")] trC5.header cells =
             [("Filename", filename), ("duration_sec", d),
              ("transcript", transcriptField (dictRow trC5.header cells))]))) :=
  ⟨rfl, by decide, rfl,
   adddur_lookup_semantics mdC5 trC5 [("a.wav", "1.5"), ("b.wav", "2.0")] outC5
     rfl (by decide) rfl⟩

/-- Concrete metadata file for the C9 witness: the key a.wav is present
but mapped to an empty duration_sec. -/
def mdC9 : CSV := ⟨["Filename", "duration_sec"], [["a.wav", ""]]⟩

/-- Concrete transcriptions file for the C9 witness. -/
def trC9 : CSV := ⟨["Filename", "Transcription"], [["a.wav", "hi"]]⟩

/-- The output add_durations produces on the C9 witness input: the
present-but-empty key is counted unmatched and warned about. -/
def outC9 : JoinOut :=
  { rows := [[("Filename", "a.wav"), ("duration_sec", ""), ("transcript", "hi")]],
    processed := 1,
    matched := 0,
    unmatched := 1,
    warnings := ["  Warning: No duration found for a.wav"] }

theorem adddur_matched_counts_witness :
    loadDurationMap mdC9 = Except.ok [("a.wav", "")] ∧
    "Filename" ∈ trC9.header ∧
    add_durations mdC9 trC9 = Except.ok outC9 ∧
    (outC9.matched = (trC9.rows.filter
       (fun c => !(lookedUpDur [("a.wav", "")] trC9.header c == ""))).length ∧
     outC9.unmatched = (trC9.rows.filter
       (fun c => lookedUpDur [("a.wav", "")] trC9.header c == "")).length ∧
     (∀ cells ∈ trC9.rows,
       ∀ filename, dget "Filename" (dictRow trC9.header cells) = some filename →
         dget filename [("a.wav", "")] = some "" →
           lookedUpDur [("a.wav", "")] trC9.header cells = "" ∧
           dget "duration_sec" (emitRow [("a.wav", "")] trC9.header cells) = some "" ∧
           ("  Warning: No duration found for " ++ filename) ∈ outC9.warnings)) :=
  ⟨rfl, by decide, rfl,
   adddur_matched_counts mdC9 trC9 [("a.wav", "")] outC9 rfl (by decide) rfl⟩

theorem except_ok_bind {ε α β : Type} (a : α) (f : α → Except ε β) :
    (Except.ok a >>= f) = f a := rfl

theorem durStep_ok {header : List String}
    (h1 : "Filename" ∈ header) (h2 : "duration_sec" ∈ header)
    (m0 : List (String × String)) (cells : List String) :
    durStep header m0 cells =
      Except.ok (dinsert (rowKey header "Filename" cells)
        (rowKey header "duration_sec" cells) m0) := by
  obtain ⟨f, hf⟩ := dget_dictRow_isSome_of_mem h1 cells
  obtain ⟨d, hd⟩ := dget_dictRow_isSome_of_mem h2 cells
  have hk1 : rowKey header "Filename" cells = f := by rw [rowKey, hf]; rfl
  have hk2 : rowKey header "duration_sec" cells = d := by rw [rowKey, hd]; rfl
  rw [durStep, hf, hd, hk1, hk2]

theorem loadDurationMap_ok (metadata : CSV)
    (h1 : "Filename" ∈ metadata.header) (h2 : "duration_sec" ∈ metadata.header) :
    loadDurationMap metadata =
      Except.ok (metadata.rows.foldl
        (fun m c => dinsert (rowKey metadata.header "Filename" c)
          (rowKey metadata.header "duration_sec" c) m) []) := by
  rw [loadDurationMap]
  suffices hgen : ∀ (cells : List (List String)) (m0 : List (String × String)),
      List.foldlM (durStep metadata.header) m0 cells =
        Except.ok (cells.foldl
          (fun m c => dinsert (rowKey metadata.header "Filename" c)
            (rowKey metadata.header "duration_sec" c) m) m0) by
    exact hgen metadata.rows []
  intro cells
  induction cells with
  | nil => intro m0; simp [List.foldlM_nil]; rfl
  | cons c cs ih =>
    intro m0
    rw [List.foldlM_cons, durStep_ok h1 h2, except_ok_bind, ih, List.foldl_cons]

/-! ### reorder_to_match.py (row reorder)

Embeds reorder_to_match(reference_file, file_to_reorder, output_file,
match_column).  The reference pass collects reference_order (raw
row[match_column], which can raise KeyError); the target pass checks
the column against the header, reporting the missing column and the
available columns, then builds rows_dict (a Python dict, so a repeated
key silently keeps only the last row); the reorder pass walks
reference_order appending the found rows and counting the missing ones;
finally the keys of rows_dict that are not in reference_order are
appended.  Python iterates those extra keys in set order, which is
unspecified; the embedding uses dict insertion order, and every theorem
stated about the extras segment is insensitive to its order. -/

/-- One iteration of the reference pass: reference_order.append
(row[match_column]). -/
def refStep (header : List String) (matchCol : String) (ks : List String)
    (cells : List String) : Except PyErr (List String) :=
  match dget matchCol (dictRow header cells) with
  | none => .error (.keyError matchCol)
  | some k => .ok (ks ++ [k])

/-- The reference pass of reorder_to_match. -/
def refOrder (ref : CSV) (matchCol : String) : Except PyErr (List String) :=
  ref.rows.foldlM (refStep ref.header matchCol) []

/-- The rows_dict reorder_to_match builds from the target file:
rows_dict[row[match_column]] = row for every row, in order (a Python
dict, so a repeated key silently keeps only the last row). -/
def tdict (target : CSV) (matchCol : String) : List (String × Row) :=
  target.rows.foldl
    (fun m cells => dinsert (rowKey target.header matchCol cells)
      (dictRow target.header cells) m) []

/-- The target pass of reorder_to_match: check the match column against
the header (reporting the available columns when absent), then build
rows_dict. -/
def loadRowsDict (target : CSV) (matchCol : String) :
    Except PyErr (List (String × Row)) :=
  if matchCol ∈ target.header then .ok (tdict target matchCol)
  else .error (.missingColumn matchCol target.header)

/-- Observable outcome of reorder_to_match: the written rows and the
missing / extra counts it reports. -/
structure ReorderOut where
  rows : List Row
  missing_count : Nat
  extra_count : Nat
deriving DecidableEq, Repr

/-- The reorder pass: for each reference key in order, append the row
held in rows_dict if present, otherwise count it missing. -/
def reorderFold (rows_dict : List (String × Row)) (reference_order : List String) :
    List Row × Nat :=
  reference_order.foldl
    (fun acc k =>
      match dget k rows_dict with
      | some row => (acc.1 ++ [row], acc.2)
      | none => (acc.1, acc.2 + 1))
    ([], 0)

/-- reorder_to_match: reference pass, target pass, reorder pass, then
append the rows of the extra keys (target keys not in the reference). -/
def reorder_to_match (ref target : CSV) (matchCol : String) :
    Except PyErr ReorderOut :=
  match refOrder ref matchCol with
  | .error e => .error e
  | .ok reference_order =>
    match loadRowsDict target matchCol with
    | .error e => .error e
    | .ok rows_dict =>
      let fm := reorderFold rows_dict reference_order
      let extra_keys := (rows_dict.map Prod.fst).filter
        (fun k => !(reference_order.contains k))
      let extraRows := extra_keys.filterMap (fun k => dget k rows_dict)
      .ok { rows := fm.1 ++ extraRows,
            missing_count := fm.2,
            extra_count := extra_keys.length }

theorem refStep_ok {header : List String} {matchCol : String}
    (h : matchCol ∈ header) (ks : List String) (cells : List String) :
    refStep header matchCol ks cells =
      Except.ok (ks ++ [rowKey header matchCol cells]) := by
  obtain ⟨k, hk⟩ := dget_dictRow_isSome_of_mem h cells
  have hk1 : rowKey header matchCol cells = k := by rw [rowKey, hk]; rfl
  rw [refStep, hk, hk1]

theorem refOrder_ok (ref : CSV) (matchCol : String) (h : matchCol ∈ ref.header) :
    refOrder ref matchCol =
      Except.ok (ref.rows.map (rowKey ref.header matchCol)) := by
  rw [refOrder]
  suffices hgen : ∀ (cells : List (List String)) (ks : List String),
      List.foldlM (refStep ref.header matchCol) ks cells =
        Except.ok (ks ++ cells.map (rowKey ref.header matchCol)) by
    have := hgen ref.rows []
    simpa using this
  intro cells
  induction cells with
  | nil => intro ks; simp [List.foldlM_nil]; rfl
  | cons c cs ih =>
    intro ks
    rw [List.foldlM_cons, refStep_ok h, except_ok_bind, ih]
    simp [List.append_assoc]

theorem reorderFold_spec (rows_dict : List (String × Row))
    (reference_order : List String) :
    reorderFold rows_dict reference_order =
      (reference_order.filterMap (fun k => dget k rows_dict),
       (reference_order.filter (fun k => (dget k rows_dict).isNone)).length) := by
  rw [reorderFold]
  suffices hgen : ∀ (ks : List String) (acc : List Row × Nat),
      ks.foldl
        (fun acc k =>
          match dget k rows_dict with
          | some row => (acc.1 ++ [row], acc.2)
          | none => (acc.1, acc.2 + 1)) acc =
      (acc.1 ++ ks.filterMap (fun k => dget k rows_dict),
       acc.2 + (ks.filter (fun k => (dget k rows_dict).isNone)).length) by
    have := hgen reference_order ([], 0)
    simpa using this
  intro ks
  induction ks with
  | nil => intro acc; simp
  | cons k ks ih =>
    intro acc
    rw [List.foldl_cons]
    cases hk : dget k rows_dict with
    | some row =>
      rw [ih]
      simp [List.filterMap_cons, List.filter_cons, hk, List.append_assoc]
    | none =>
      rw [ih]
      simp [List.filterMap_cons, List.filter_cons, hk]
      omega

/-- The value of one column in a parsed row (as used for sort keys and
match keys; total via the empty-string default, which the scripts never
hit because they only read checked columns). -/
def rowColVal (col : String) (r : Row) : String := (dget col r).getD ""

/-- The key sequence of the target file, in row order. -/
def targetKeys (target : CSV) (matchCol : String) : List String :=
  target.rows.map (rowKey target.header matchCol)

/-- The rows of a CSV file as DictReader dicts, in file order. -/
def parsedRows (file : CSV) : List Row := file.rows.map (dictRow file.header)

theorem dget_build_eq_lastAssoc (ps : List (String × α)) (k : String) :
    dget k (ps.foldl (fun m p => dinsert p.1 p.2 m) []) = lastAssoc k ps := by
  rw [dget_foldl_dinsert]
  cases lastAssoc k ps <;> simp [dget]

theorem tdict_eq_foldl_pairs (target : CSV) (matchCol : String) :
    tdict target matchCol =
      (target.rows.map (fun c => (rowKey target.header matchCol c,
        dictRow target.header c))).foldl (fun m p => dinsert p.1 p.2 m) [] := by
  rw [tdict, List.foldl_map]

theorem dget_tdict_eq_none_iff (target : CSV) (matchCol k : String) :
    dget k (tdict target matchCol) = none ↔ k ∉ targetKeys target matchCol := by
  rw [tdict_eq_foldl_pairs, dget_build_eq_lastAssoc, lastAssoc_eq_none_iff,
    List.map_map, targetKeys]
  rfl

theorem tdict_key {target : CSV} {matchCol : String} (hcol : matchCol ∈ target.header)
    {k : String} {r : Row} (h : dget k (tdict target matchCol) = some r) :
    dget matchCol r = some k := by
  have hmem : (k, r) ∈ tdict target matchCol := dget_mem h
  rw [tdict_eq_foldl_pairs] at hmem
  rcases mem_foldl_dinsert _ _ hmem with h2 | h2
  · simp at h2
  · rcases List.mem_map.mp h2 with ⟨c, _, hc⟩
    obtain ⟨v, hv⟩ := dget_dictRow_isSome_of_mem hcol c
    have hkeq : rowKey target.header matchCol c = v := by rw [rowKey, hv]; rfl
    have h3 : k = rowKey target.header matchCol c := by
      have := congrArg Prod.fst hc
      simpa using this.symm
    have h4 : r = dictRow target.header c := by
      have := congrArg Prod.snd hc
      simpa using this.symm
    rw [h4, hv, h3, hkeq]

theorem tdict_eq_pairs_of_nodup {target : CSV} {matchCol : String}
    (hnd : (targetKeys target matchCol).Nodup) :
    tdict target matchCol =
      target.rows.map (fun c => (rowKey target.header matchCol c,
        dictRow target.header c)) := by
  rw [tdict_eq_foldl_pairs]
  have := foldl_dinsert_of_nodup
    (target.rows.map (fun c => (rowKey target.header matchCol c,
      dictRow target.header c))) []
  simp only [List.nil_append] at this
  apply this
  rw [List.map_map]
  exact hnd

/-- The result reorder_to_match returns once both passes succeed,
written out in terms of rows_dict. -/
theorem reorder_to_match_ok (ref target : CSV) (matchCol : String)
    (ks : List String)
    (hks : refOrder ref matchCol = Except.ok ks)
    (hcol : matchCol ∈ target.header) :
    reorder_to_match ref target matchCol =
      Except.ok
        { rows := ks.filterMap (fun k => dget k (tdict target matchCol)) ++
            (((tdict target matchCol).map Prod.fst).filter
              (fun k => !(ks.contains k))).filterMap
                (fun k => dget k (tdict target matchCol)),
          missing_count := (ks.filter
            (fun k => (dget k (tdict target matchCol)).isNone)).length,
          extra_count := (((tdict target matchCol).map Prod.fst).filter
            (fun k => !(ks.contains k))).length } := by
  rw [reorder_to_match, hks]
  show ((match loadRowsDict target matchCol with
    | Except.error e => Except.error e
    | Except.ok rows_dict =>
      let fm := reorderFold rows_dict ks
      let extra_keys := (rows_dict.map Prod.fst).filter
        (fun k => !(ks.contains k))
      let extraRows := extra_keys.filterMap (fun k => dget k rows_dict)
      Except.ok { rows := fm.1 ++ extraRows,
                  missing_count := fm.2,
                  extra_count := extra_keys.length }) : Except PyErr ReorderOut) = _
  rw [loadRowsDict, if_pos hcol]
  show Except.ok _ = _
  rw [reorderFold_spec]

theorem length_filterMap_add_filter_isNone (g : α → Option β) (l : List α) :
    (l.filterMap g).length + (l.filter (fun a => (g a).isNone)).length = l.length := by
  induction l with
  | nil => simp
  | cons a l ih =>
    cases hg : g a with
    | some b =>
      have h1 : List.filterMap g (a :: l) = b :: List.filterMap g l := by
        simp only [List.filterMap_cons, hg]
      have h2 : List.filter (fun a => (g a).isNone) (a :: l) =
          List.filter (fun a => (g a).isNone) l := by
        simp [List.filter_cons, hg]
      rw [h1, h2]
      simp only [List.length_cons]
      omega
    | none =>
      have h1 : List.filterMap g (a :: l) = List.filterMap g l := by
        simp only [List.filterMap_cons, hg]
      have h2 : List.filter (fun a => (g a).isNone) (a :: l) =
          a :: List.filter (fun a => (g a).isNone) l := by
        simp [List.filter_cons, hg]
      rw [h1, h2]
      simp only [List.length_cons]
      omega

theorem filterMap_eq_map_getD (g : α → Option β) (d : β) :
    ∀ (l : List α), (∀ a ∈ l, (g a).isSome) →
      l.filterMap g = l.map (fun a => (g a).getD d) := by
  intro l
  induction l with
  | nil => intro _; simp
  | cons a l ih =>
    intro h
    have ha := h a (List.mem_cons_self a l)
    cases hg : g a with
    | none => rw [hg] at ha; cases ha
    | some b =>
      simp only [List.filterMap_cons, hg, List.map_cons]
      rw [ih (fun x hx => h x (List.mem_cons_of_mem _ hx))]
      simp [hg]

theorem map_fst_filter_fst (P : List (String × α)) (p : String → Bool) :
    (P.filter (fun q => p q.1)).map Prod.fst = (P.map Prod.fst).filter p := by
  induction P with
  | nil => simp
  | cons q P ih => cases hp : p q.1 <;> simp [List.filter_cons, hp, ih]

theorem dget_cons_ne {k k0 : String} {v0 : α} {P : List (String × α)}
    (h : k ≠ k0) : dget k ((k0, v0) :: P) = dget k P := by
  simp [dget, h]

theorem filter_keys_filterMap_dget (p : String → Bool) :
    ∀ (P : List (String × α)), (P.map Prod.fst).Nodup →
      ((P.map Prod.fst).filter p).filterMap (fun k => dget k P) =
        (P.filter (fun q => p q.1)).map Prod.snd := by
  intro P
  induction P with
  | nil => intro _; simp
  | cons q P ih =>
    intro hnd
    obtain ⟨k0, v0⟩ := q
    simp only [List.map_cons, List.nodup_cons] at hnd
    have hcongr : ((P.map Prod.fst).filter p).filterMap
        (fun k => dget k ((k0, v0) :: P)) =
        ((P.map Prod.fst).filter p).filterMap (fun k => dget k P) := by
      apply List.filterMap_congr
      intro x hx
      have hxk : x ∈ P.map Prod.fst := (List.mem_filter.mp hx).1
      have hne : x ≠ k0 := fun hxe => hnd.1 (hxe ▸ hxk)
      exact dget_cons_ne hne
    have hself : dget k0 ((k0, v0) :: P) = some v0 := by simp [dget]
    cases hp : p k0 with
    | true =>
      have h1 : List.filter p (List.map Prod.fst ((k0, v0) :: P)) =
          k0 :: List.filter p (List.map Prod.fst P) := by
        simp [List.filter_cons, hp]
      have h2 : List.filter (fun q => p q.1) ((k0, v0) :: P) =
          (k0, v0) :: List.filter (fun q => p q.1) P := by
        simp [List.filter_cons, hp]
      rw [h1, h2]
      simp only [List.filterMap_cons, hself, List.map_cons]
      rw [hcongr, ih hnd.2]
    | false =>
      have h1 : List.filter p (List.map Prod.fst ((k0, v0) :: P)) =
          List.filter p (List.map Prod.fst P) := by
        simp [List.filter_cons, hp]
      have h2 : List.filter (fun q => p q.1) ((k0, v0) :: P) =
          List.filter (fun q => p q.1) P := by
        simp [List.filter_cons, hp]
      rw [h1, h2, hcongr, ih hnd.2]

theorem contains_eq_decide_mem (l : List String) (a : String) :
    l.contains a = decide (a ∈ l) := List.elem_eq_mem a l

theorem perm_filter_keys_of_superset {ks keysP : List String}
    (hnd1 : ks.Nodup) (hnd2 : keysP.Nodup)
    (hsup : ∀ k ∈ ks, k ∈ keysP) :
    ks.Perm (keysP.filter (fun k => ks.contains k)) := by
  apply (List.perm_ext_iff_of_nodup hnd1 (hnd2.filter _)).mpr
  intro a
  constructor
  · intro ha
    rw [List.mem_filter]
    exact ⟨hsup a ha, by rw [contains_eq_decide_mem]; exact decide_eq_true ha⟩
  · intro ha
    have := (List.mem_filter.mp ha).2
    rw [contains_eq_decide_mem] at this
    exact of_decide_eq_true this

/-- C1: Row Reorderer (reorder_to_match): if the target file key set is
a superset of the reference file key set and neither side contains
duplicate keys, the output row sequence is a permutation of the target
rows (same multiset, same length) with the rows whose keys appear in
the reference ordered by the reference key sequence; and for every
reference key absent from the target, the missing-count increments and
that position contributes no output row, so the output can be shorter
than the reference. -/
theorem reorder_superset_permutation (ref target : CSV) (matchCol : String)
    (ks : List String) (out : ReorderOut)
    (hks : refOrder ref matchCol = Except.ok ks)
    (hcol : matchCol ∈ target.header)
    (hout : reorder_to_match ref target matchCol = Except.ok out) :
    ((ks.Nodup ∧ (targetKeys target matchCol).Nodup ∧
        (∀ k ∈ ks, k ∈ targetKeys target matchCol)) →
      out.rows.Perm (parsedRows target) ∧
      out.rows.length = target.rows.length ∧
      (out.rows.map (rowColVal matchCol)).take ks.length = ks) ∧
    out.missing_count = (ks.filter
      (fun k => !((targetKeys target matchCol).contains k))).length ∧
    out.rows.length + out.missing_count = ks.length + out.extra_count := by
  rw [reorder_to_match_ok ref target matchCol ks hks hcol, Except.ok.injEq] at hout
  subst hout
  have hcond : ∀ k : String, (dget k (tdict target matchCol)).isNone =
      !((targetKeys target matchCol).contains k) := by
    intro k
    by_cases hmem : k ∈ targetKeys target matchCol
    · cases hdg : dget k (tdict target matchCol) with
      | none =>
        exact absurd ((dget_tdict_eq_none_iff target matchCol k).mp hdg)
          (by simp [hmem])
      | some v =>
        rw [contains_eq_decide_mem]
        simp [hmem]
    · rw [(dget_tdict_eq_none_iff target matchCol k).mpr hmem, contains_eq_decide_mem]
      simp [hmem]
  have hext : ∀ k ∈ ((tdict target matchCol).map Prod.fst).filter
      (fun k => !(ks.contains k)),
      ((fun k => dget k (tdict target matchCol)) k).isSome := by
    intro k hk
    have hkk : k ∈ (tdict target matchCol).map Prod.fst := (List.mem_filter.mp hk).1
    cases hdg : dget k (tdict target matchCol) with
    | none => exact absurd ((dget_eq_none_iff _ _).mp hdg) (by simp [hkk])
    | some v => simp [hdg]
  have hextlen : ((((tdict target matchCol).map Prod.fst).filter
      (fun k => !(ks.contains k))).filterMap
      (fun k => dget k (tdict target matchCol))).length =
      (((tdict target matchCol).map Prod.fst).filter
        (fun k => !(ks.contains k))).length := by
    rw [filterMap_eq_map_getD _ ([] : Row) _ hext, List.length_map]
  have hfm := length_filterMap_add_filter_isNone
    (fun k => dget k (tdict target matchCol)) ks
  refine ⟨?_, ?_, ?_⟩
  · rintro ⟨hnd1, hnd2, hsup⟩
    have hP := tdict_eq_pairs_of_nodup hnd2
    have hkeys : (target.rows.map (fun c => (rowKey target.header matchCol c,
        dictRow target.header c))).map Prod.fst = targetKeys target matchCol := by
      rw [List.map_map]; rfl
    have hndP : ((target.rows.map (fun c => (rowKey target.header matchCol c,
        dictRow target.header c))).map Prod.fst).Nodup := by
      rw [hkeys]; exact hnd2
    have hsnd : (target.rows.map (fun c => (rowKey target.header matchCol c,
        dictRow target.header c))).map Prod.snd = parsedRows target := by
      rw [List.map_map]; rfl
    have hsome : ∀ k ∈ ks, ((fun k => dget k (tdict target matchCol)) k).isSome := by
      intro k hk
      cases hdg : dget k (tdict target matchCol) with
      | none =>
        exact absurd ((dget_tdict_eq_none_iff target matchCol k).mp hdg)
          (by simp [hsup k hk])
      | some v => simp [hdg]
    have hmap : ks.filterMap (fun k => dget k (tdict target matchCol)) =
        ks.map (fun k => (dget k (tdict target matchCol)).getD []) :=
      filterMap_eq_map_getD _ ([] : Row) ks hsome
    have hextr : (((tdict target matchCol).map Prod.fst).filter
        (fun k => !(ks.contains k))).filterMap
          (fun k => dget k (tdict target matchCol)) =
        ((target.rows.map (fun c => (rowKey target.header matchCol c,
          dictRow target.header c))).filter
            (fun q => !(ks.contains q.1))).map Prod.snd := by
      rw [hP]
      exact filter_keys_filterMap_dget _ _ hndP
    have hvals : ∀ q ∈ (target.rows.map (fun c => (rowKey target.header matchCol c,
        dictRow target.header c))).filter (fun q => ks.contains q.1),
        Prod.snd q = (dget q.1 (tdict target matchCol)).getD [] := by
      intro q hq
      have hqP := (List.mem_filter.mp hq).1
      have hdq : dget q.1 (target.rows.map (fun c => (rowKey target.header matchCol c,
          dictRow target.header c))) = some q.2 :=
        dget_of_mem_nodup hndP (by simpa using hqP)
      rw [hP, hdq]
      rfl
    have hmsnd : ((target.rows.map (fun c => (rowKey target.header matchCol c,
        dictRow target.header c))).filter (fun q => ks.contains q.1)).map Prod.snd =
        (((target.rows.map (fun c => (rowKey target.header matchCol c,
          dictRow target.header c))).map Prod.fst).filter (fun k => ks.contains k)).map
            (fun k => (dget k (tdict target matchCol)).getD []) := by
      rw [← map_fst_filter_fst, List.map_map]
      exact List.map_congr_left hvals
    have hsup2 : ∀ k ∈ ks, k ∈ (target.rows.map (fun c => (rowKey target.header matchCol c,
        dictRow target.header c))).map Prod.fst := by
      intro k hk
      rw [hkeys]
      exact hsup k hk
    have hperm1 : (ks.map (fun k => (dget k (tdict target matchCol)).getD [])).Perm
        (((target.rows.map (fun c => (rowKey target.header matchCol c,
          dictRow target.header c))).filter (fun q => ks.contains q.1)).map Prod.snd) := by
      rw [hmsnd]
      exact (perm_filter_keys_of_superset hnd1 hndP hsup2).map _
    have hfap := List.filter_append_perm (fun q => ks.contains q.1)
      (target.rows.map (fun c => (rowKey target.header matchCol c,
        dictRow target.header c)))
    have hperm : ((ks.filterMap (fun k => dget k (tdict target matchCol))) ++
        ((((tdict target matchCol).map Prod.fst).filter
          (fun k => !(ks.contains k))).filterMap
            (fun k => dget k (tdict target matchCol)))).Perm (parsedRows target) := by
      rw [hmap, hextr]
      refine List.Perm.trans (List.Perm.append hperm1 (List.Perm.refl _)) ?_
      rw [← List.map_append]
      refine List.Perm.trans (hfap.map Prod.snd) ?_
      rw [hsnd]
    have hkeyvals : ∀ k ∈ ks,
        rowColVal matchCol ((dget k (tdict target matchCol)).getD []) = k := by
      intro k hk
      have hs2 : (dget k (tdict target matchCol)).isSome = true := hsome k hk
      cases hv : dget k (tdict target matchCol) with
      | none => rw [hv] at hs2; cases hs2
      | some v =>
        have hkv := tdict_key hcol hv
        rw [Option.getD_some, rowColVal, hkv]
        rfl
    refine ⟨hperm, ?_, ?_⟩
    · rw [hperm.length_eq, parsedRows, List.length_map]
    · show ((ks.filterMap (fun k => dget k (tdict target matchCol)) ++
        ((((tdict target matchCol).map Prod.fst).filter
          (fun k => !(ks.contains k))).filterMap
            (fun k => dget k (tdict target matchCol)))).map
              (rowColVal matchCol)).take ks.length = ks
      rw [hmap, List.map_append, List.map_map]
      have hmapid : ks.map (rowColVal matchCol ∘
          (fun k => (dget k (tdict target matchCol)).getD [])) = ks := by
        have h2 : ∀ a ∈ ks, (rowColVal matchCol ∘
            (fun k => (dget k (tdict target matchCol)).getD [])) a = id a :=
          fun a ha => hkeyvals a ha
        rw [List.map_congr_left h2, List.map_id]
      rw [hmapid]
      exact List.take_left ks _
  · show (ks.filter (fun k => (dget k (tdict target matchCol)).isNone)).length = _
    rw [List.filter_congr (fun a _ => hcond a)]
  · show (ks.filterMap (fun k => dget k (tdict target matchCol)) ++
        ((((tdict target matchCol).map Prod.fst).filter
          (fun k => !(ks.contains k))).filterMap
            (fun k => dget k (tdict target matchCol)))).length +
      (ks.filter (fun k => (dget k (tdict target matchCol)).isNone)).length =
      ks.length + (((tdict target matchCol).map Prod.fst).filter
        (fun k => !(ks.contains k))).length
    rw [List.length_append, hextlen]
    omega

/-- Concrete reference file for the C1 witness. -/
def refC1 : CSV := ⟨["Filename"], [["b.wav"], ["a.wav"]]⟩

/-- Concrete target file for the C1 witness: its key set strictly
contains the reference keys, no duplicates on either side. -/
def tgtC1 : CSV :=
  ⟨["Filename", "transcript"], [["a.wav", "x"], ["b.wav", "y"], ["c.wav", "z"]]⟩

/-- The output reorder_to_match produces on the C1 witness input. -/
def outC1 : ReorderOut :=
  { rows := [[("Filename", "b.wav"), ("transcript", "y")],
             [("Filename", "a.wav"), ("transcript", "x")],
             [("Filename", "c.wav"), ("transcript", "z")]],
    missing_count := 0,
    extra_count := 1 }

theorem reorder_superset_permutation_witness :
    refOrder refC1 "Filename" = Except.ok ["b.wav", "a.wav"] ∧
    "Filename" ∈ tgtC1.header ∧
    reorder_to_match refC1 tgtC1 "Filename" = Except.ok outC1 ∧
    (((["b.wav", "a.wav"] : List String).Nodup ∧
        (targetKeys tgtC1 "Filename").Nodup ∧
        (∀ k ∈ (["b.wav", "a.wav"] : List String), k ∈ targetKeys tgtC1 "Filename")) →
      outC1.rows.Perm (parsedRows tgtC1) ∧
      outC1.rows.length = tgtC1.rows.length ∧
      (outC1.rows.map (rowColVal "Filename")).take
        (["b.wav", "a.wav"] : List String).length = ["b.wav", "a.wav"]) ∧
    outC1.missing_count = ((["b.wav", "a.wav"] : List String).filter
      (fun k => !((targetKeys tgtC1 "Filename").contains k))).length ∧
    outC1.rows.length + outC1.missing_count =
      (["b.wav", "a.wav"] : List String).length + outC1.extra_count :=
  ⟨rfl, by decide, rfl,
   (reorder_superset_permutation refC1 tgtC1 "Filename" ["b.wav", "a.wav"] outC1
     rfl (by decide) rfl).1,
   (reorder_superset_permutation refC1 tgtC1 "Filename" ["b.wav", "a.wav"] outC1
     rfl (by decide) rfl).2.1,
   (reorder_superset_permutation refC1 tgtC1 "Filename" ["b.wav", "a.wav"] outC1
     rfl (by decide) rfl).2.2⟩

theorem filterMap_dget_keys (P : List (String × α)) (hnd : (P.map Prod.fst).Nodup) :
    (P.map Prod.fst).filterMap (fun k => dget k P) = P.map Prod.snd := by
  have h := filter_keys_filterMap_dget (fun _ => true) P hnd
  simpa using h

/-- C7: Row Reorderer (reorder_to_match): if the reference key sequence
is exactly equal to the target key sequence (same keys, same order, no
duplicates), the output row sequence equals the target input row
sequence: reordering is a no-op (identity) when reference and target
already agree. -/
theorem reorder_identity (ref target : CSV) (matchCol : String) (ks : List String)
    (hks : refOrder ref matchCol = Except.ok ks)
    (hcol : matchCol ∈ target.header)
    (heq : targetKeys target matchCol = ks)
    (hnd : ks.Nodup) :
    ∃ out, reorder_to_match ref target matchCol = Except.ok out ∧
      out.rows = parsedRows target ∧
      out.missing_count = 0 ∧ out.extra_count = 0 := by
  have hnd2 : (targetKeys target matchCol).Nodup := by rw [heq]; exact hnd
  have hP := tdict_eq_pairs_of_nodup hnd2
  have hkeys : (tdict target matchCol).map Prod.fst = ks := by
    rw [hP, List.map_map, ← heq]
    rfl
  have hndP : ((tdict target matchCol).map Prod.fst).Nodup := by
    rw [hkeys]; exact hnd
  have hmatched : ks.filterMap (fun k => dget k (tdict target matchCol)) =
      parsedRows target := by
    rw [← hkeys, filterMap_dget_keys _ hndP, hP, List.map_map]
    rfl
  have hextra : ((tdict target matchCol).map Prod.fst).filter
      (fun k => !(ks.contains k)) = [] := by
    rw [hkeys, List.filter_eq_nil_iff]
    intro a ha
    rw [contains_eq_decide_mem]
    simp [ha]
  have hmiss : ks.filter (fun k => (dget k (tdict target matchCol)).isNone) = [] := by
    rw [List.filter_eq_nil_iff]
    intro a ha
    have hmem : a ∈ targetKeys target matchCol := by rw [heq]; exact ha
    cases hdg : dget a (tdict target matchCol) with
    | none =>
      exact absurd ((dget_tdict_eq_none_iff _ _ _).mp hdg) (by simp [hmem])
    | some v => simp
  refine ⟨_, reorder_to_match_ok ref target matchCol ks hks hcol, ?_, ?_, ?_⟩
  · show ks.filterMap (fun k => dget k (tdict target matchCol)) ++
      (((tdict target matchCol).map Prod.fst).filter
        (fun k => !(ks.contains k))).filterMap
          (fun k => dget k (tdict target matchCol)) = parsedRows target
    rw [hextra, hmatched]
    simp
  · show (ks.filter (fun k => (dget k (tdict target matchCol)).isNone)).length = 0
    rw [hmiss]; rfl
  · show (((tdict target matchCol).map Prod.fst).filter
      (fun k => !(ks.contains k))).length = 0
    rw [hextra]; rfl

/-- Concrete reference file for the C7 witness. -/
def refC7 : CSV := ⟨["Filename"], [["a.wav"], ["b.wav"]]⟩

/-- Concrete target file for the C7 witness: same key sequence as the
reference, same order, no duplicates. -/
def tgtC7 : CSV := ⟨["Filename", "transcript"], [["a.wav", "1"], ["b.wav", "2"]]⟩

theorem reorder_identity_witness :
    refOrder refC7 "Filename" = Except.ok ["a.wav", "b.wav"] ∧
    "Filename" ∈ tgtC7.header ∧
    targetKeys tgtC7 "Filename" = ["a.wav", "b.wav"] ∧
    (["a.wav", "b.wav"] : List String).Nodup ∧
    (∃ out, reorder_to_match refC7 tgtC7 "Filename" = Except.ok out ∧
      out.rows = parsedRows tgtC7 ∧
      out.missing_count = 0 ∧ out.extra_count = 0) :=
  ⟨rfl, by decide, by decide, by decide,
   reorder_identity refC7 tgtC7 "Filename" ["a.wav", "b.wav"]
     rfl (by decide) (by decide) (by decide)⟩

theorem filter_key_filterMap_replicate {P : List (String × Row)} {matchCol k : String}
    {r : Row}
    (hkeyinv : ∀ k0 v, dget k0 P = some v → rowColVal matchCol v = k0)
    (hr : dget k P = some r) :
    ∀ ks : List String,
      (ks.filterMap (fun k0 => dget k0 P)).filter
        (fun row => rowColVal matchCol row == k) =
      List.replicate (ks.count k) r := by
  intro ks
  induction ks with
  | nil => simp
  | cons k0 ks ih =>
    cases hd : dget k0 P with
    | none =>
      have hne : ¬ (k0 == k) = true := by
        intro he
        rw [beq_iff_eq.mp he, hr] at hd
        cases hd
      have h1 : List.filterMap (fun k0 => dget k0 P) (k0 :: ks) =
          List.filterMap (fun k0 => dget k0 P) ks := by
        simp only [List.filterMap_cons, hd]
      have h2 : (k0 :: ks).count k = ks.count k := by
        rw [List.count_cons]
        simp [hne]
      rw [h1, h2, ih]
    | some v =>
      have hkey := hkeyinv k0 v hd
      have h1 : List.filterMap (fun k0 => dget k0 P) (k0 :: ks) =
          v :: List.filterMap (fun k0 => dget k0 P) ks := by
        simp only [List.filterMap_cons, hd]
      rw [h1, List.filter_cons]
      by_cases he : k0 = k
      · subst he
        have hv : v = r := by
          rw [hd] at hr
          exact Option.some.injEq .. ▸ hr ▸ rfl
        have hcnt : (k0 :: ks).count k0 = ks.count k0 + 1 := by
          rw [List.count_cons]
          simp
        have hcondv : (rowColVal matchCol v == k0) = true := by
          rw [hkey]
          exact beq_self_eq_true k0
        rw [hcondv, if_pos rfl, ih, hcnt, hv, List.replicate_succ]
      · have hcondv : (rowColVal matchCol v == k) = false := by
          rw [hkey]
          exact beq_eq_false_iff_ne.mpr he
        have hcnt : (k0 :: ks).count k = ks.count k := by
          rw [List.count_cons]
          simp [he]
        rw [hcondv, if_neg (by simp), ih, hcnt]

theorem filter_extras_eq_nil {P : List (String × Row)} {matchCol k : String}
    (hkeyinv : ∀ k0 v, dget k0 P = some v → rowColVal matchCol v = k0)
    {ks : List String} (hk : k ∈ ks) :
    (((P.map Prod.fst).filter (fun k0 => !(ks.contains k0))).filterMap
      (fun k0 => dget k0 P)).filter (fun row => rowColVal matchCol row == k) = [] := by
  rw [List.filter_eq_nil_iff]
  intro row hrow
  rcases List.mem_filterMap.mp hrow with ⟨k0, hk0, hdg⟩
  have hkey := hkeyinv k0 row hdg
  have hk0f := (List.mem_filter.mp hk0).2
  have hne : k0 ≠ k := by
    intro he
    subst he
    rw [contains_eq_decide_mem] at hk0f
    simp [hk] at hk0f
  rw [hkey]
  simp [hne]

/-- Concrete reference file for C10: the key a.wav occurs twice. -/
def refC10 : CSV := ⟨["Filename"], [["a.wav"], ["a.wav"]]⟩

/-- Concrete target file for C10: a single row for a.wav. -/
def tgtC10 : CSV := ⟨["Filename", "transcript"], [["a.wav", "x"]]⟩

/-- C10: Row Reorderer (reorder_to_match): if a key occurs k > 1 times
in the reference file key column and is present in the target, the
single (last-loaded) target row for that key is emitted k times in the
output; hence with duplicate reference keys the output is not in
general a sub-multiset or permutation of the target rows, and can be
longer than the target. -/
theorem reorder_duplicate_reference_keys (ref target : CSV) (matchCol : String)
    (ks : List String) (out : ReorderOut) (k : String) (r : Row)
    (hks : refOrder ref matchCol = Except.ok ks)
    (hcol : matchCol ∈ target.header)
    (hout : reorder_to_match ref target matchCol = Except.ok out)
    (hr : dget k (tdict target matchCol) = some r)
    (hk : k ∈ ks) :
    out.rows.filter (fun row => rowColVal matchCol row == k) =
      List.replicate (ks.count k) r ∧
    (∃ o, reorder_to_match refC10 tgtC10 "Filename" = Except.ok o ∧
      tgtC10.rows.length < o.rows.length) := by
  rw [reorder_to_match_ok ref target matchCol ks hks hcol, Except.ok.injEq] at hout
  subst hout
  have hkeyinv : ∀ k0 v, dget k0 (tdict target matchCol) = some v →
      rowColVal matchCol v = k0 := by
    intro k0 v hdg
    rw [rowColVal, tdict_key hcol hdg]
    rfl
  constructor
  · show ((ks.filterMap (fun k0 => dget k0 (tdict target matchCol)) ++
      ((((tdict target matchCol).map Prod.fst).filter
        (fun k0 => !(ks.contains k0))).filterMap
          (fun k0 => dget k0 (tdict target matchCol))))).filter
        (fun row => rowColVal matchCol row == k) = List.replicate (ks.count k) r
    rw [List.filter_append, filter_key_filterMap_replicate hkeyinv hr ks,
      filter_extras_eq_nil hkeyinv hk, List.append_nil]
  · exact ⟨{ rows := [[("Filename", "a.wav"), ("transcript", "x")],
               [("Filename", "a.wav"), ("transcript", "x")]],
             missing_count := 0, extra_count := 0 }, rfl, by decide⟩

theorem reorder_duplicate_reference_keys_witness :
    refOrder refC10 "Filename" = Except.ok ["a.wav", "a.wav"] ∧
    "Filename" ∈ tgtC10.header ∧
    reorder_to_match refC10 tgtC10 "Filename" =
      Except.ok { rows := [[("Filename", "a.wav"), ("transcript", "x")],
                    [("Filename", "a.wav"), ("transcript", "x")]],
                  missing_count := 0, extra_count := 0 } ∧
    dget "a.wav" (tdict tgtC10 "Filename") =
      some [("Filename", "a.wav"), ("transcript", "x")] ∧
    "a.wav" ∈ (["a.wav", "a.wav"] : List String) ∧
    ({ rows := [[("Filename", "a.wav"), ("transcript", "x")],
        [("Filename", "a.wav"), ("transcript", "x")]],
       missing_count := 0, extra_count := 0 : ReorderOut }.rows.filter
        (fun row => rowColVal "Filename" row == "a.wav") =
      List.replicate ((["a.wav", "a.wav"] : List String).count "a.wav")
        [("Filename", "a.wav"), ("transcript", "x")] ∧
     (∃ o, reorder_to_match refC10 tgtC10 "Filename" = Except.ok o ∧
       tgtC10.rows.length < o.rows.length)) :=
  ⟨rfl, by decide, rfl, rfl, by decide,
   reorder_duplicate_reference_keys refC10 tgtC10 "Filename"
     ["a.wav", "a.wav"]
     { rows := [[("Filename", "a.wav"), ("transcript", "x")],
         [("Filename", "a.wav"), ("transcript", "x")]],
       missing_count := 0, extra_count := 0 }
     "a.wav" [("Filename", "a.wav"), ("transcript", "x")]
     rfl (by decide) rfl rfl (by decide)⟩

theorem dget_foldl_pairfn (f : β → String × α) (l : List β) (k : String) :
    dget k (l.foldl (fun m c => dinsert (f c).1 (f c).2 m) []) =
      lastAssoc k (l.map f) := by
  rw [← List.foldl_map f (fun m p => dinsert p.1 p.2 m)]
  exact dget_build_eq_lastAssoc _ k

/-- C6: Key-Value Loader: when the same key value occurs more than once
in a loaded source, the mapping silently binds that key to the
last-seen row in source order (last occurrence wins), with no error or
warning; this holds for every mapping built by the join and reorder
operations (lastAssoc is by definition the value of the last binding
of the key in source order). -/
theorem loader_duplicate_last_wins (metadata target : CSV) (matchCol k : String)
    (h1 : "Filename" ∈ metadata.header) (h2 : "duration_sec" ∈ metadata.header)
    (hcol : matchCol ∈ target.header) :
    (∃ dm, loadDurationMap metadata = Except.ok dm ∧
      dget k dm = lastAssoc k (metadata.rows.map
        (fun c => (rowKey metadata.header "Filename" c,
          rowKey metadata.header "duration_sec" c)))) ∧
    (loadRowsDict target matchCol = Except.ok (tdict target matchCol) ∧
      dget k (tdict target matchCol) = lastAssoc k (target.rows.map
        (fun c => (rowKey target.header matchCol c, dictRow target.header c)))) := by
  refine ⟨⟨_, loadDurationMap_ok metadata h1 h2, ?_⟩, ?_, ?_⟩
  · exact dget_foldl_pairfn (fun c => (rowKey metadata.header "Filename" c,
      rowKey metadata.header "duration_sec" c)) metadata.rows k
  · rw [loadRowsDict, if_pos hcol]
  · rw [tdict]
    exact dget_foldl_pairfn (fun c => (rowKey target.header matchCol c,
      dictRow target.header c)) target.rows k

/-- Concrete metadata file for the C6 witness: the key a.wav occurs
twice with different durations. -/
def mdC6 : CSV := ⟨["Filename", "duration_sec"], [["a.wav", "1"], ["a.wav", "2"]]⟩

/-- Concrete target file for the C6 witness: the key a.wav occurs twice
with different rows. -/
def tgtC6 : CSV := ⟨["Filename", "t"], [["a.wav", "u"], ["a.wav", "v"]]⟩

theorem loader_duplicate_last_wins_witness :
    "Filename" ∈ mdC6.header ∧ "duration_sec" ∈ mdC6.header ∧
    "Filename" ∈ tgtC6.header ∧
    ((∃ dm, loadDurationMap mdC6 = Except.ok dm ∧
      dget "a.wav" dm = lastAssoc "a.wav" (mdC6.rows.map
        (fun c => (rowKey mdC6.header "Filename" c,
          rowKey mdC6.header "duration_sec" c)))) ∧
     (loadRowsDict tgtC6 "Filename" = Except.ok (tdict tgtC6 "Filename") ∧
      dget "a.wav" (tdict tgtC6 "Filename") = lastAssoc "a.wav" (tgtC6.rows.map
        (fun c => (rowKey tgtC6.header "Filename" c, dictRow tgtC6.header c))))) ∧
    lastAssoc "a.wav" (mdC6.rows.map
      (fun c => (rowKey mdC6.header "Filename" c,
        rowKey mdC6.header "duration_sec" c))) = some "2" :=
  ⟨by decide, by decide, by decide,
   loader_duplicate_last_wins mdC6 tgtC6 "Filename" "a.wav"
     (by decide) (by decide) (by decide),
   rfl⟩

/-! ### order_csvs.py (sort-compare)

Embeds order_csv_files(file1, file2, sort_column, output_suffix): both
files are read, the sort column is checked against both headers before
any sort or write (reporting the missing column and the available
columns), then each row list is sorted independently by the string
value of the sort column (Python sorted, a stable sort with
lexicographic string comparison by code point) and written out.  The
trailing value-comparison report is console-only and out of scope. -/

/-- The comparator Python sorted uses via key=lambda x: x[sort_column]:
compare the sort-column strings lexicographically. -/
def rowLe (sortCol : String) (a b : Row) : Bool :=
  strLe (rowColVal sortCol a) (rowColVal sortCol b)

/-- order_csv_files: check both headers, then sort the rows of each file by
the sort column (mergeSort, a stable merge sort, matching the stable
Python sorted). -/
def order_csv_files (file1 file2 : CSV) (sortCol : String) :
    Except PyErr (List Row × List Row) :=
  if sortCol ∈ file1.header then
    if sortCol ∈ file2.header then
      .ok ((parsedRows file1).mergeSort (rowLe sortCol),
           (parsedRows file2).mergeSort (rowLe sortCol))
    else .error (.missingColumn sortCol file2.header)
  else .error (.missingColumn sortCol file1.header)

theorem rowLe_trans (sortCol : String) (a b c : Row)
    (h1 : rowLe sortCol a b = true) (h2 : rowLe sortCol b c = true) :
    rowLe sortCol a c = true :=
  strLe_trans _ _ _ h1 h2

theorem rowLe_total (sortCol : String) (a b : Row) :
    (rowLe sortCol a b || rowLe sortCol b a) = true :=
  strLe_total _ _

/-- C8: Sort-compare (order_csvs): for any input file with the sort
column present, the written sorted output key-column value sequence is
non-decreasing in lexicographic string order, and the output row
multiset equals the input row multiset. -/
theorem order_csvs_sorted_perm (file1 file2 : CSV) (sortCol : String)
    (h1 : sortCol ∈ file1.header) (h2 : sortCol ∈ file2.header) :
    ∃ out1 out2, order_csv_files file1 file2 sortCol = Except.ok (out1, out2) ∧
      (out1.map (rowColVal sortCol)).Pairwise (fun a b => strLe a b = true) ∧
      out1.Perm (parsedRows file1) ∧
      (out2.map (rowColVal sortCol)).Pairwise (fun a b => strLe a b = true) ∧
      out2.Perm (parsedRows file2) := by
  refine ⟨(parsedRows file1).mergeSort (rowLe sortCol),
    (parsedRows file2).mergeSort (rowLe sortCol), ?_, ?_, ?_, ?_, ?_⟩
  · rw [order_csv_files, if_pos h1, if_pos h2]
  · rw [List.pairwise_map]
    exact List.sorted_mergeSort (rowLe_trans sortCol) (rowLe_total sortCol)
      (parsedRows file1)
  · exact List.mergeSort_perm (parsedRows file1) (rowLe sortCol)
  · rw [List.pairwise_map]
    exact List.sorted_mergeSort (rowLe_trans sortCol) (rowLe_total sortCol)
      (parsedRows file2)
  · exact List.mergeSort_perm (parsedRows file2) (rowLe sortCol)

/-- Concrete input files for the C8 witness. -/
def csvC8a : CSV := ⟨["Filename", "t"], [["b.wav", "1"], ["a.wav", "2"]]⟩

/-- Second concrete input file for the C8 witness. -/
def csvC8b : CSV := ⟨["Filename"], [["c.wav"], ["a.wav"], ["b.wav"]]⟩

theorem order_csvs_sorted_perm_witness :
    "Filename" ∈ csvC8a.header ∧ "Filename" ∈ csvC8b.header ∧
    (∃ out1 out2, order_csv_files csvC8a csvC8b "Filename" =
        Except.ok (out1, out2) ∧
      (out1.map (rowColVal "Filename")).Pairwise (fun a b => strLe a b = true) ∧
      out1.Perm (parsedRows csvC8a) ∧
      (out2.map (rowColVal "Filename")).Pairwise (fun a b => strLe a b = true) ∧
      out2.Perm (parsedRows csvC8b)) :=
  ⟨by decide, by decide,
   order_csvs_sorted_perm csvC8a csvC8b "Filename" (by decide) (by decide)⟩

/-- C3 counterexample: a metadata file whose schema lacks the Filename
key column.  With no data rows the duration-map loader of add_durations
succeeds with an empty mapping (it performs no schema check), and with
a data row it raises a bare KeyError naming only the column; in neither
case does it fail with a MissingColumnError listing the available
columns, contradicting the claim that every loader does. -/
theorem loader_missing_column_cx :
    loadDurationMap ⟨["fname", "duration_sec"], []⟩ = Except.ok [] ∧
    loadDurationMap ⟨["fname", "duration_sec"], [["a.wav", "1.2"]]⟩ =
      Except.error (PyErr.keyError "Filename") := ⟨rfl, rfl⟩

/-- C3 amended: only the reorder target loader and the sort-compare
loader fail with a MissingColumnError naming the missing column and
listing the available columns (non-fatally: the error is reported and
only that step aborts); the duration-join metadata loader and the
reorder reference pass perform no schema check of their own: with zero
data rows they succeed with an empty result, and otherwise the first
row raises a bare KeyError naming only the column. -/
theorem loader_missing_column_amended (target file2 metadata ref : CSV)
    (col : String)
    (htar : col ∉ target.header) (hmeta : "Filename" ∉ metadata.header)
    (href : col ∉ ref.header) :
    loadRowsDict target col =
      Except.error (PyErr.missingColumn col target.header) ∧
    order_csv_files target file2 col =
      Except.error (PyErr.missingColumn col target.header) ∧
    (metadata.rows = [] → loadDurationMap metadata = Except.ok []) ∧
    (metadata.rows ≠ [] →
      loadDurationMap metadata = Except.error (PyErr.keyError "Filename")) ∧
    (ref.rows = [] → refOrder ref col = Except.ok []) ∧
    (ref.rows ≠ [] → refOrder ref col = Except.error (PyErr.keyError col)) := by
  refine ⟨?_, ?_, ?_, ?_, ?_, ?_⟩
  · rw [loadRowsDict, if_neg htar]
  · rw [order_csv_files, if_neg htar]
  · intro h0
    rw [loadDurationMap, h0]
    rfl
  · intro hne
    cases hrows : metadata.rows with
    | nil => exact absurd hrows hne
    | cons c cs =>
      rw [loadDurationMap, hrows, List.foldlM_cons]
      have hstep : durStep metadata.header [] c =
          Except.error (PyErr.keyError "Filename") := by
        rw [durStep, (dget_dictRow_eq_none_iff "Filename" metadata.header c).mpr hmeta]
      rw [hstep]
      rfl
  · intro h0
    rw [refOrder, h0]
    rfl
  · intro hne
    cases hrows : ref.rows with
    | nil => exact absurd hrows hne
    | cons c cs =>
      rw [refOrder, hrows, List.foldlM_cons]
      have hstep : refStep ref.header col [] c =
          Except.error (PyErr.keyError col) := by
        rw [refStep, (dget_dictRow_eq_none_iff col ref.header c).mpr href]
      rw [hstep]
      rfl

/-- Concrete target file for the C3 witness: no Filename column. -/
def tgtC3 : CSV := ⟨["fname", "text"], [["a.wav", "hi"]]⟩

/-- Concrete metadata file for the C3 witness: no Filename column. -/
def mdC3 : CSV := ⟨["fname", "duration_sec"], [["a.wav", "1.2"]]⟩

theorem loader_missing_column_amended_witness :
    "Filename" ∉ tgtC3.header ∧ "Filename" ∉ mdC3.header ∧
    (loadRowsDict tgtC3 "Filename" =
      Except.error (PyErr.missingColumn "Filename" tgtC3.header) ∧
    order_csv_files tgtC3 mdC3 "Filename" =
      Except.error (PyErr.missingColumn "Filename" tgtC3.header) ∧
    (mdC3.rows = [] → loadDurationMap mdC3 = Except.ok []) ∧
    (mdC3.rows ≠ [] →
      loadDurationMap mdC3 = Except.error (PyErr.keyError "Filename")) ∧
    (tgtC3.rows = [] → refOrder tgtC3 "Filename" = Except.ok []) ∧
    (tgtC3.rows ≠ [] →
      refOrder tgtC3 "Filename" = Except.error (PyErr.keyError "Filename"))) :=
  ⟨by decide, by decide,
   loader_missing_column_amended tgtC3 mdC3 mdC3 tgtC3 "Filename"
     (by decide) (by decide) (by decide)⟩

/-! ### stitch_chunks.py and merge_files.py (concatenation)

Embeds the write loop shared by stitch_csv_files(input_folder,
output_file, sort_files) and merge_files_in_order(input_folder,
output_file, name_order): for each input file in order, an unopenable
file is skipped with a printed error, a file whose header read raises
StopIteration (empty file) is skipped with a warning, and otherwise the
header is written once (from the first non-empty readable file) and
every data row is appended while the written-rows counter grows.  File
discovery, name-pattern selection and alphabetic sorting happen before
this loop and are outside the claim; the two loop bodies are
line-for-line identical, so both scripts are embedded by the same step
function. -/

/-- One input file as the loop sees it: unopenable (open raised), or
its csv.reader row list (header first when non-empty). -/
inductive SrcFile where
  | unreadable
  | content (rows : List (List String))
deriving DecidableEq, Repr

/-- Observable outcome of the concatenation loop: the header written
(if any), the data rows written in order, the rows-written counter and
the skip warnings. -/
structure StitchOut where
  header : Option (List String)
  rows : List (List String)
  rows_written : Nat
  warnings : List String
deriving DecidableEq, Repr

/-- One iteration of the concatenation loop. -/
def stitchStep (acc : StitchOut) (f : SrcFile) : StitchOut :=
  match f with
  | .unreadable => { acc with warnings := acc.warnings ++ ["  Error processing file"] }
  | .content [] =>
    { acc with warnings := acc.warnings ++ ["  Warning: file is empty, skipping..."] }
  | .content (hdr :: dataRows) =>
    { header := match acc.header with
        | none => some hdr
        | some h0 => some h0,
      rows := acc.rows ++ dataRows,
      rows_written := acc.rows_written + dataRows.length,
      warnings := acc.warnings }

/-- stitch_csv_files: concatenate the discovered files in order. -/
def stitch_csv_files (files : List SrcFile) : StitchOut :=
  files.foldl stitchStep
    { header := none, rows := [], rows_written := 0, warnings := [] }

/-- merge_files_in_order: concatenate the name-matched files in order
(the write loop of merge_files.py is identical to stitch_chunks.py). -/
def merge_files_in_order (files : List SrcFile) : StitchOut :=
  files.foldl stitchStep
    { header := none, rows := [], rows_written := 0, warnings := [] }

/-- The header line a file contributes, when readable and non-empty. -/
def headerOf : SrcFile → Option (List String)
  | .content (hdr :: _) => some hdr
  | _ => none

/-- The data rows a file contributes, when readable and non-empty. -/
def dataRowsOf : SrcFile → Option (List (List String))
  | .content (_ :: dataRows) => some dataRows
  | _ => none

/-- The skip warning a file triggers, when unreadable or empty. -/
def skipNote : SrcFile → Option String
  | .unreadable => some "  Error processing file"
  | .content [] => some "  Warning: file is empty, skipping..."
  | .content (_ :: _) => none

theorem stitchFold (files : List SrcFile) :
    ∀ (acc : StitchOut), files.foldl stitchStep acc =
      { header := match acc.header with
          | some h0 => some h0
          | none => (files.filterMap headerOf).head?,
        rows := acc.rows ++ (files.filterMap dataRowsOf).flatten,
        rows_written := acc.rows_written +
          ((files.filterMap dataRowsOf).map List.length).sum,
        warnings := acc.warnings ++ files.filterMap skipNote } := by
  induction files with
  | nil =>
    intro acc
    simp only [List.foldl_nil, List.filterMap_nil, List.flatten_nil,
      List.append_nil, List.map_nil, List.sum_nil, Nat.add_zero, List.head?_nil]
    cases acc with
    | mk hh rr ww gg => cases hh <;> rfl
  | cons f fs ih =>
    intro acc
    rw [List.foldl_cons, ih]
    cases f with
    | unreadable =>
      simp only [stitchStep, List.filterMap_cons, headerOf, dataRowsOf, skipNote]
      congr 1 <;>
        first
          | rfl
          | ((cases acc.header <;> simp) <;> omega)
          | simp [List.flatten_cons, List.append_assoc]
          | (simp only [List.map_cons, List.sum_cons]; omega)
          | simp [List.append_assoc]
    | content rows =>
      cases rows with
      | nil =>
        simp only [stitchStep, List.filterMap_cons, headerOf, dataRowsOf, skipNote]
        congr 1 <;>
          first
            | rfl
            | ((cases acc.header <;> simp) <;> omega)
            | simp [List.flatten_cons, List.append_assoc]
            | (simp only [List.map_cons, List.sum_cons]; omega)
            | simp [List.append_assoc]
      | cons hdr dataRows =>
        simp only [stitchStep, List.filterMap_cons, headerOf, dataRowsOf, skipNote]
        congr 1 <;>
          first
            | rfl
            | ((cases acc.header <;> simp) <;> omega)
            | simp [List.flatten_cons, List.append_assoc]
            | (simp only [List.map_cons, List.sum_cons]; omega)
            | simp [List.append_assoc]

/-- C4: Concatenator (stitch_chunks / merge_files): for N input files
with data-row counts r1..rN, the output contains exactly the sum of
the data rows of the non-empty, readable files, in file order then row
order, under a single header taken from the first non-empty file
regardless of later files headers; an empty or unreadable file is
skipped with a warning and does not abort the operation (every later
file still contributes its rows). -/
theorem stitch_concat_spec (files : List SrcFile) :
    stitch_csv_files files =
      { header := (files.filterMap headerOf).head?,
        rows := (files.filterMap dataRowsOf).flatten,
        rows_written := ((files.filterMap dataRowsOf).map List.length).sum,
        warnings := files.filterMap skipNote } ∧
    merge_files_in_order files = stitch_csv_files files ∧
    (stitch_csv_files files).rows.length =
      ((files.filterMap dataRowsOf).map List.length).sum := by
  have h := stitchFold files
    { header := none, rows := [], rows_written := 0, warnings := [] }
  have h1 : stitch_csv_files files =
      { header := (files.filterMap headerOf).head?,
        rows := (files.filterMap dataRowsOf).flatten,
        rows_written := ((files.filterMap dataRowsOf).map List.length).sum,
        warnings := files.filterMap skipNote } := by
    rw [stitch_csv_files, h]
    simp
  refine ⟨h1, rfl, ?_⟩
  rw [h1]
  show ((files.filterMap dataRowsOf).flatten).length = _
  rw [List.length_flatten]

end TranscriptionScripts
